import Mathlib

/- Shallow embedding of scripts/meetups_to_rss.py, the Meetup
"starting soon" to RSS pipeline.

Modelling conventions:
  * Instants are absolute times in seconds (Int).  Aware Python datetimes
    compare by absolute instant, so the values returned by now_local(),
    parsed datetimes and the window arithmetic all live on this one axis.
  * External collaborators are parameters of an Env record:
    dateutil.parser.parse is the oracle Env.gp (returning none both for a
    None result and for a raised parse error, which the script swallows);
    strftime "%Y-%m-%d" is Env.fmtDate; rfc2822 rendering of an instant in
    UTC is Env.fmtRFC; the utcoffset of the fixed reference zone LOCAL_TZ
    (America/Toronto) is the constant Env.localOff.  The wall clock read by
    now_local() and datetime.now is a stream clk : Nat -> Int of readings
    consumed in program order (the script re-reads the clock at several
    points; the stream index records which reading each point consumes).
  * Character classes of Python's re module (the classes \s, \w, \d) and
    str.lower are modelled over ASCII.
  * Serialization to XML text (build_rss) is not modelled; the item
    sequence handed to the serializer is the observable output.  In the
    non-blocked branch of main() the expression
    items.sort(key=lambda x: x.get("attendees_count", 0), reverse=TRUE)
    evaluates the undefined name TRUE and raises NameError, modelled as
    Except.error PyError.nameErrorTRUE.
-/

namespace Meetup

def MEETUP_URL : String :=
  "https://www.meetup.com/find/?dateRange=startingSoon&source=EVENTS&eventType=online"

def WINDOW_MINUTES : Nat := 90

def MAX_ITEMS : Nat := 50

/- ASCII character classes used by the regexes of the script. -/

def isSpaceChar (c : Char) : Bool :=
  c.toNat = 32 || c.toNat = 9 || c.toNat = 10 || c.toNat = 13 || c.toNat = 11 || c.toNat = 12

def isDigitChar (c : Char) : Bool :=
  48 ≤ c.toNat && c.toNat ≤ 57

def isWordChar (c : Char) : Bool :=
  (65 ≤ c.toNat && c.toNat ≤ 90) || (97 ≤ c.toNat && c.toNat ≤ 122) ||
    isDigitChar c || c.toNat = 95

def lowerChar (c : Char) : Char :=
  if 65 ≤ c.toNat && c.toNat ≤ 90 then Char.ofNat (c.toNat + 32) else c

def lowerChars (cs : List Char) : List Char := cs.map lowerChar

/- Python str.strip(): drop whitespace at both ends. -/
def stripChars (cs : List Char) : List Char :=
  ((cs.dropWhile isSpaceChar).reverse.dropWhile isSpaceChar).reverse

/- re.sub of one-or-more whitespace by a single space (line 101 of the script). -/
def normSpaceGo : Bool → List Char → List Char
  | _, [] => []
  | prevSpace, c :: rest =>
    if isSpaceChar c then
      if prevSpace then normSpaceGo true rest else ' ' :: normSpaceGo true rest
    else c :: normSpaceGo false rest

def normSpaceChars (cs : List Char) : List Char := normSpaceGo false cs

def listStarts : List Char → List Char → Bool
  | [], _ => true
  | _ :: _, [] => false
  | a :: ns, b :: hs => a = b && listStarts ns hs

/- listStartsCI word cs: cs starts (case-insensitively) with the given
lowercase word. -/
def listStartsCI : List Char → List Char → Bool
  | [], _ => true
  | _ :: _, [] => false
  | a :: ns, b :: hs => a = lowerChar b && listStartsCI ns hs

/- Python substring test (the operator in). -/
def containsSub : List Char → List Char → Bool
  | [], needle => needle.isEmpty
  | c :: rest, needle => listStarts needle (c :: rest) || containsSub rest needle

def digitsToNat (ds : List Char) : Nat := ds.foldl (fun a c => a * 10 + (c.toNat - 48)) 0

def wordBoundaryBefore : Option Char → Bool
  | none => true
  | some c => !isWordChar c

def boundaryAfter : List Char → Bool
  | [] => true
  | c :: _ => !isWordChar c

def minutesW : List Char := "minutes".toList
def minuteW : List Char := "minute".toList
def hoursW : List Char := "hours".toList
def hourW : List Char := "hour".toList
def todayW : List Char := "today".toList
def tomorrowW : List Char := "tomorrow".toList
def startingSoonW : List Char := "starting soon".toList

/- The unit alternative (minute|minutes|hour|hours) followed by a word
boundary, anchored at cs.  Longest-first testing is equivalent to the
regex alternation order because matching the shorter word and then the
boundary fails exactly when the longer word is present. -/
def unitAt (cs : List Char) : Option Bool :=
  if listStarts minutesW cs && boundaryAfter (cs.drop 7) then some false
  else if listStarts minuteW cs && boundaryAfter (cs.drop 6) then some false
  else if listStarts hoursW cs && boundaryAfter (cs.drop 5) then some true
  else if listStarts hourW cs && boundaryAfter (cs.drop 4) then some true
  else none

/- Digits-then-unit part of the relative pattern, anchored at cs.  The
group of one-to-three digits backtracks against the following unit word:
a shorter slice of a digit run leaves a digit as the next character, which
matches neither more whitespace nor a unit word, so the pattern matches
exactly when the maximal digit run at cs has length 1..3. -/
def matchRelNum (cs : List Char) : Option (Nat × Bool) :=
  if (cs.takeWhile isDigitChar).length = 0 || 3 < (cs.takeWhile isDigitChar).length then none
  else
    match unitAt ((cs.dropWhile isDigitChar).dropWhile isSpaceChar) with
    | some isH => some (digitsToNat (cs.takeWhile isDigitChar), isH)
    | none => none

def matchRelAfterIn (rest : List Char) : Option (Nat × Bool) :=
  if (rest.takeWhile isSpaceChar).isEmpty then none
  else matchRelNum (rest.dropWhile isSpaceChar)

/- The whole relative pattern anchored at cs (the word boundary before cs
is checked by the caller); cs is already lowercased. -/
def matchRelAt : List Char → Option (Nat × Bool)
  | c1 :: c2 :: rest => if c1 = 'i' && c2 = 'n' then matchRelAfterIn rest else none
  | _ => none

/- re.search of the relative pattern: leftmost match wins. -/
def findRelGo : Option Char → List Char → Option (Nat × Bool)
  | _, [] => none
  | prev, c :: rest =>
    match (if wordBoundaryBefore prev then matchRelAt (c :: rest) else none) with
    | some r => some r
    | none => findRelGo (some c) rest

def findRel (cs : List Char) : Option (Nat × Bool) := findRelGo none cs

/- re.search of a whole lowercase word, case-insensitively. -/
def hasWordGo (word : List Char) : Option Char → List Char → Bool
  | _, [] => false
  | prev, c :: rest =>
    (wordBoundaryBefore prev && listStartsCI word (c :: rest) &&
      boundaryAfter (rest.drop (word.length - 1))) ||
    hasWordGo word (some c) rest

def hasWordCI (word cs : List Char) : Bool := hasWordGo word none cs

/- re.sub of a whole word (case-insensitive), all occurrences, scanning
resuming after each replacement as re.sub does. -/
def replaceWordGo (word repl : List Char) : Option Char → List Char → List Char
  | _, [] => []
  | prev, c :: rest =>
    if wordBoundaryBefore prev && listStartsCI word (c :: rest) &&
        boundaryAfter (rest.drop (word.length - 1)) then
      repl ++ replaceWordGo word repl (some (((c :: rest).take word.length).getLastD c))
        (rest.drop (word.length - 1))
    else c :: replaceWordGo word repl (some c) rest
termination_by _prev cs => cs.length
decreasing_by
  all_goals simp [List.length_drop]
  omega

/- Lines 111-114 of the script: guarded re.sub of today / tomorrow. -/
def substituteWord (word : List Char) (repl : String) (t : List Char) : List Char :=
  if hasWordCI word t then replaceWordGo word repl.toList none t else t

/- A datetime as returned by the external parser: wall-clock seconds plus
an optional utcoffset (aware) or none (naive). -/
structure PyDT where
  naive : Int
  tzoff : Option Int
deriving DecidableEq

structure Env where
  gp : String → Option PyDT
  fmtDate : Int → String
  fmtRFC : Int → String
  localOff : Int

/- dt.astimezone(LOCAL_TZ) if dt.tzinfo else dt.replace(tzinfo=LOCAL_TZ),
expressed on the absolute-instant axis: astimezone keeps the instant,
replace reinterprets the wall-clock value in the reference zone. -/
def dtToLocalAbs (localOff : Int) (d : PyDT) : Int :=
  match d.tzoff with
  | some o => d.naive - o
  | none => d.naive - localOff

/- Lines 96-122 of parse_dt: the free-text cascade.  base is the value
now_local() returned at line 100. -/
def parse_dt_free (env : Env) (when_text : String) (base : Int) : Option Int :=
  let t0 := stripChars when_text.toList
  if t0 = [] then none
  else
    let t1 := normSpaceChars t0
    match findRel (lowerChars t1) with
    | some (n, isH) => some (base + (if isH then (n : Int) * 3600 else (n : Int) * 60))
    | none =>
      let t2 := substituteWord todayW (env.fmtDate base) t1
      let t3 := substituteWord tomorrowW (env.fmtDate (base + 86400)) t2
      (env.gp (String.mk t3)).map (dtToLocalAbs env.localOff)

/- parse_dt, lines 80-122. -/
def parse_dt (env : Env) (dt_attr when_text : String) (base : Int) : Option Int :=
  if dt_attr = "" then parse_dt_free env when_text base
  else
    match env.gp dt_attr with
    | some d => some (dtToLocalAbs env.localOff d)
    | none => parse_dt_free env when_text base

/- within_window, lines 125-150.  start is the value now_local() returned
at line 134 (only read when dt is present). -/
def within_window (dt : Option Int) (when_text : String) (start : Int) : Bool :=
  match dt with
  | some d => decide (start ≤ d) && decide (d ≤ start + (WINDOW_MINUTES : Int) * 60)
  | none =>
    let t := stripChars (lowerChars when_text.toList)
    if containsSub t startingSoonW then true
    else
      match findRel t with
      | some (n, isH) => decide ((if isH then n * 60 else n) ≤ WINDOW_MINUTES)
      | none => true

/- attendees_to_int, lines 65-77: first run of up-to-six digits after
removing commas; missing, empty or digitless text gives 0. -/
def findFirstNum : List Char → Option Nat
  | [] => none
  | c :: rest =>
    if isDigitChar c then some (digitsToNat (((c :: rest).takeWhile isDigitChar).take 6))
    else findFirstNum rest

def attendees_to_int (attendees_text : Option String) : Nat :=
  match attendees_text with
  | none => 0
  | some s =>
    if s = "" then 0
    else
      match findFirstNum (s.toList.filter (fun c => c ≠ ',')) with
      | none => 0
      | some n => n

/- The attendance behavior as it actually is, stated independently for the
amended claim: strip commas, drop everything before the first digit, read
the digit run there, keep at most its first six digits, value in base 10;
an absent input, an empty input and a digitless input all give 0. -/
def attendeesSpec (attendees_text : Option String) : Nat :=
  match attendees_text with
  | none => 0
  | some s =>
    let cleaned := s.toList.filter (fun c => c ≠ ',')
    digitsToNat (((cleaned.dropWhile (fun c => !isDigitChar c)).takeWhile isDigitChar).take 6)

/- The per-card keep decision of main, lines 365-368: parse_dt with the
clock reading r1 at its line 100, then within_window with the separate
clock reading r2 at its line 134. -/
def keepDecision (env : Env) (dt_attr when_text : String) (r1 r2 : Int) : Bool :=
  within_window (parse_dt env dt_attr when_text r1) when_text r2

/- The raw payload returned by scrape_rendered_dom / page.evaluate. -/

structure Ev where
  title : String
  url : String
  whenText : String
  dtAttr : String
  attendeesText : String
  cardText : String
deriving DecidableEq

structure Raw where
  countAnchors : Nat
  extracted : Nat
  events : List Ev
  bodySnippet : String

inductive PyError where
  | nameErrorTRUE
deriving DecidableEq

structure Item where
  title : String
  url : String
  when_text : String
  attendees_text : String
  attendees_count : Nat
  pubdate : String
deriving DecidableEq

def blocked_signals : List String :=
  ["verify", "captcha", "robot", "unusual traffic", "enable javascript"]

def is_blocked (raw : Raw) : Bool :=
  (raw.countAnchors == 0 && raw.extracted == 0) ||
    blocked_signals.any (fun s => containsSub (lowerChars raw.bodySnippet.toList) s.toList)

/- parse_dt executes its line 100 read of now_local() exactly when the
machine-time branch did not return and the stripped free text is nonempty. -/
def parse_dt_reads_clock (env : Env) (dt_attr when_text : String) : Bool :=
  (dt_attr = "" || (env.gp dt_attr).isNone) && !(stripChars when_text.toList).isEmpty

/- parse_dt with the clock stream: returns the value and the next unread
index.  When the line-100 read does not happen the base argument is dead,
so feeding clk i unconditionally is sound. -/
def parse_dtC (env : Env) (dt_attr when_text : String) (clk : Nat → Int) (i : Nat) :
    Option Int × Nat :=
  (parse_dt env dt_attr when_text (clk i),
   if parse_dt_reads_clock env dt_attr when_text then i + 1 else i)

/- within_window with the clock stream: line 134 reads now_local() exactly
when dt is present. -/
def within_windowC (dt : Option Int) (when_text : String) (clk : Nat → Int) (i : Nat) :
    Bool × Nat :=
  (within_window dt when_text (clk i), if dt.isSome then i + 1 else i)

/- " | ".join of the nonempty title parts, lines 374-379. -/
def joinTitle (base wt att : String) : String :=
  base ++ (if wt = "" then "" else " | " ++ wt) ++ (if att = "" then "" else " | " ++ att)

def PLACEHOLDER_WHEN : String := "Starting soon (time not provided on card)"

/- The loop of main over the extracted events, lines 358-390, producing the
candidate item list that the sort would receive. -/
def buildItems (env : Env) (clk : Nat → Int) : List Ev → Nat → List Item
  | [], _ => []
  | e :: rest, i =>
    let base_title := String.mk (stripChars e.title.toList)
    let url := String.mk (stripChars e.url.toList)
    let when_text := String.mk (stripChars e.whenText.toList)
    let dt_attr := String.mk (stripChars e.dtAttr.toList)
    let attendees_text := String.mk (stripChars e.attendeesText.toList)
    let pr := parse_dtC env dt_attr when_text clk i
    let ww := within_windowC pr.1 when_text clk pr.2
    if !ww.1 then buildItems env clk rest ww.2
    else
      let cnt := attendees_to_int (some attendees_text)
      let pub_i : String × Nat :=
        match pr.1 with
        | some t => (env.fmtRFC t, ww.2)
        | none => (env.fmtRFC (clk ww.2), ww.2 + 1)
      (⟨joinTitle base_title when_text attendees_text, url,
        (if when_text = "" then PLACEHOLDER_WHEN else when_text),
        attendees_text, cnt, pub_i.1⟩ : Item) :: buildItems env clk rest pub_i.2

/- The single diagnostic item of the blocked branch, lines 349-356. -/
def blockedItem (env : Env) (clk : Nat → Int) (raw : Raw) : Item :=
  ⟨"⚠️ Meetup blocked or page did not render on GitHub runner",
    MEETUP_URL,
    "anchors=" ++ toString raw.countAnchors ++ ", extracted=" ++ toString raw.extracted ++
      ". Open /debug.png and /debug.html on GitHub Pages.",
    "", 0, env.fmtRFC (clk 0)⟩

/- main, lines 333-409, up to the item sequence handed to build_rss.  The
blocked branch serializes its one diagnostic item.  The non-blocked branch
builds the candidate list and then evaluates the undefined name TRUE in
items.sort(key=..., reverse=TRUE) at line 393, raising NameError before
sorting, capping, the empty-result diagnostic, and serialization. -/
def mainItems (env : Env) (clk : Nat → Int) (raw : Raw) : Except PyError (List Item) :=
  if is_blocked raw then Except.ok [blockedItem env clk raw]
  else
    let _cand := buildItems env clk raw.events 0
    Except.error PyError.nameErrorTRUE

/- The card-extraction loop run inside page.evaluate, lines 258-309.  Each
anchor is abstracted to the values its DOM queries return: the absolute
URL computed by new URL(href, location.origin), the title fallback chain
h3 innerText / aria-label / anchor innerText, the time element's innerText
and datetime attribute, and the innerText of the card's span elements. -/
structure Anchor where
  url : String
  rawTitle : String
  whenText : String
  dtAttr : String
  spans : List String
  cardText : String

/- The span scan for the attendee phrase, lines 296-304. -/
def findAttSpan : List String → String
  | [] => ""
  | s :: rest =>
    let t := String.mk (stripChars s.toList)
    if containsSub (lowerChars t.toList) ("attendee".toList) then t else findAttSpan rest

/- The dedup-and-validate loop: a seen set of canonical URLs, first
occurrence wins (the URL is recorded before the title length check, as in
the source). -/
def extractCards : List Anchor → List String → List Ev
  | [], _ => []
  | a :: rest, seen =>
    if a.url = "" || seen.contains a.url then extractCards rest seen
    else
      let seen1 := a.url :: seen
      let title := String.mk (stripChars a.rawTitle.toList)
      if title = "" || title.length < 3 then extractCards rest seen1
      else
        (⟨title, a.url, String.mk (stripChars a.whenText.toList),
          String.mk (stripChars a.dtAttr.toList), findAttSpan a.spans, a.cardText⟩ : Ev) ::
          extractCards rest seen1

/- Concrete instances used by the evaluation theorems. -/

def envNone : Env := ⟨fun _ => none, fun _ => "", fun _ => "", 0⟩

def clk0 : Nat → Int := fun _ => 0

def evC1 : Ev :=
  ⟨"Intro to Rust", "https://www.meetup.com/events/abc123/", "", "not-a-date", "soon!?", ""⟩

def rawC1 : Raw := ⟨3, 1, [evC1], ""⟩

def evLow : Ev := ⟨"Event A", "https://www.meetup.com/events/a/", "", "", "5 attendees", ""⟩

def evHigh : Ev := ⟨"Event B", "https://www.meetup.com/events/b/", "", "", "9 attendees", ""⟩

def rawC3 : Raw := ⟨2, 2, [evLow, evHigh], ""⟩

def dupA1 : Anchor := ⟨"https://www.meetup.com/events/dup/", "Rust Meetup", "", "", [], ""⟩

def dupA2 : Anchor := ⟨"https://www.meetup.com/events/dup/", "RUST MEETUP", "", "", [], ""⟩

def rawC6 : Raw := ⟨2, 1, extractCards [dupA1, dupA2] [], ""⟩

def evC8 : Ev := ⟨"Busy Event", "https://www.meetup.com/events/busy/", "", "", "", ""⟩

def rawC8 : Raw := ⟨51, 51, List.replicate 51 evC8, ""⟩

/- Theorems. -/

/-- Helper: the resolved-instant branch of within_window keeps a record
exactly when its instant lies in the closed window of 90 minutes after
the clock reading the function makes. -/
theorem within_window_some_iff (start t : Int) (s : String) :
    within_window (some t) s start = true ↔ (start ≤ t ∧ t ≤ start + 90 * 60) := by
  simp [within_window, WINDOW_MINUTES]

/-- Claim C2: for every record whose resolved instant t exists, the window
filter includes it iff now ≤ t ≤ now + 90 minutes; t = now is included,
t = now - 1 minute is excluded, t = now + window + 1 minute is excluded,
with no grace period on either side. -/
theorem within_window_window_correct (start t : Int) (s : String) :
    (within_window (some t) s start = true ↔ (start ≤ t ∧ t ≤ start + 90 * 60)) ∧
    within_window (some start) s start = true ∧
    within_window (some (start - 60)) s start = false ∧
    within_window (some (start + 90 * 60 + 60)) s start = false := by
  refine ⟨within_window_some_iff start t s, ?_, ?_, ?_⟩
  · exact (within_window_some_iff start start s).mpr (by omega)
  · rw [Bool.eq_false_iff]
    intro h
    have := (within_window_some_iff start (start - 60) s).mp h
    omega
  · rw [Bool.eq_false_iff]
    intro h
    have := (within_window_some_iff start (start + 90 * 60 + 60) s).mp h
    omega

/-- Helper: the no-instant branch of within_window with neither signal
present returns the hardcoded default true. -/
theorem within_window_none_default (s : String) (start : Int)
    (h1 : containsSub (stripChars (lowerChars s.toList)) startingSoonW = false)
    (h2 : findRel (stripChars (lowerChars s.toList)) = none) :
    within_window none s start = true := by
  have h1' : containsSub (stripChars (lowerChars s.data)) startingSoonW = false := h1
  have h2' : findRel (stripChars (lowerChars s.data)) = none := h2
  simp [within_window, h1', h2']

/-- Claim C9: when no resolved instant exists and the free text contains
neither the phrase "starting soon" nor a relative in-N-minutes/hours
phrase, within_window returns true: the fallback policy is
include-by-default, with no configuration switch in the function. -/
theorem within_window_fallback_default_keep (s : String) (start : Int)
    (h1 : containsSub (stripChars (lowerChars s.toList)) startingSoonW = false)
    (h2 : findRel (stripChars (lowerChars s.toList)) = none) :
    within_window none s start = true :=
  within_window_none_default s start h1 h2

/-- Witness for C9 at the concrete free text "whenever". -/
theorem within_window_fallback_default_keep_witness :
    within_window none "whenever" 0 = true :=
  within_window_fallback_default_keep "whenever" 0 (by decide) (by decide)

/-- Counterexample to claim C4 as stated: the extractor does not require an
attendance keyword after the number ("park at gate 5" yields 5, where the
claim requires absent), and a missing text and the text "0 attendees" both
yield 0, although the claim says absent is never zero and the two outcomes
are distinct. -/
theorem attendees_no_keyword_no_absent :
    attendees_to_int (some "park at gate 5") = 5 ∧
    attendees_to_int none = 0 ∧
    attendees_to_int (some "0 attendees") = 0 :=
  ⟨rfl, rfl, rfl⟩

/-- Helper: the digit search of attendees_to_int equals drop-to-first-digit
then take-the-run, capped at six digits. -/
theorem findFirstNum_val (cs : List Char) :
    (match findFirstNum cs with | none => 0 | some n => n) =
      digitsToNat (((cs.dropWhile (fun c => !isDigitChar c)).takeWhile isDigitChar).take 6) := by
  induction cs with
  | nil => rfl
  | cons c rest ih =>
    by_cases h : isDigitChar c = true
    · simp [findFirstNum, h]
    · simp only [Bool.not_eq_true] at h
      simp [findFirstNum, h]
      exact ih

/-- Claim C4 as amended: the extractor removes commas, takes the first run
of digits anywhere in the text, parses its first at-most-six digits in
base 10, and returns 0 (not a distinct absent value) when the text is
missing, empty, or digitless. -/
theorem attendees_first_digit_run (x : Option String) :
    attendees_to_int x = attendeesSpec x := by
  cases x with
  | none => rfl
  | some s =>
    by_cases hs : s = ""
    · subst hs; rfl
    · simp only [attendees_to_int, attendeesSpec, if_neg hs]
      exact findFirstNum_val (s.toList.filter (fun c => c ≠ ','))

/-- Helper: when the free text strips to nothing, the cascade returns
absent. -/
theorem parse_dt_free_empty (env : Env) (wt : String) (base : Int)
    (h : stripChars wt.toList = []) : parse_dt_free env wt base = none := by
  have h' : stripChars wt.data = [] := h
  simp [parse_dt_free, h']

/-- Helper: a relative in-N-minutes/hours match resolves to now plus the
offset. -/
theorem parse_dt_free_rel (env : Env) (wt : String) (base : Int) (n : Nat) (isH : Bool)
    (h1 : stripChars wt.toList ≠ [])
    (h2 : findRel (lowerChars (normSpaceChars (stripChars wt.toList))) = some (n, isH)) :
    parse_dt_free env wt base =
      some (base + (if isH then (n : Int) * 3600 else (n : Int) * 60)) := by
  have h1' : ¬stripChars wt.data = [] := h1
  have h2' : findRel (lowerChars (normSpaceChars (stripChars wt.data))) = some (n, isH) := h2
  simp [parse_dt_free, h1', h2']

/-- Helper: with no relative match, the cascade substitutes today/tomorrow
and hands the text to the general parser, normalizing its result. -/
theorem parse_dt_free_general (env : Env) (wt : String) (base : Int)
    (h1 : stripChars wt.toList ≠ [])
    (h2 : findRel (lowerChars (normSpaceChars (stripChars wt.toList))) = none) :
    parse_dt_free env wt base =
      (env.gp (String.mk (substituteWord tomorrowW (env.fmtDate (base + 86400))
          (substituteWord todayW (env.fmtDate base)
            (normSpaceChars (stripChars wt.toList)))))).map (dtToLocalAbs env.localOff) := by
  have h1' : ¬stripChars wt.data = [] := h1
  have h2' : findRel (lowerChars (normSpaceChars (stripChars wt.data))) = none := h2
  simp [parse_dt_free, h1', h2']

/-- Helper: whenever the machine-time branch does not return (absent
attribute or failed parse), parse_dt runs the free-text cascade. -/
theorem parse_dt_fallthrough (env : Env) (dtA wt : String) (base : Int)
    (h : dtA = "" ∨ env.gp dtA = none) :
    parse_dt env dtA wt base = parse_dt_free env wt base := by
  rcases h with h | h
  · simp [parse_dt, h]
  · by_cases h0 : dtA = ""
    · simp [parse_dt, h0]
    · simp [parse_dt, h0, h]

/-- Claim C5: the time resolver tries its strategies in strict priority
order, first success wins: (1) a successful parse of machineTime is
normalized to the reference zone and returned regardless of the free
text; (2) otherwise empty free text gives absent; (3) otherwise a relative
in-N-minutes/hours match gives now plus the offset; (4, 5) otherwise
today/tomorrow are substituted with the corresponding calendar dates and
the result goes to the general parser, whose failure (none) maps to
absent rather than an error. -/
theorem parse_dt_priority (env : Env) (dtA wt : String) (base : Int) :
    (∀ d, dtA ≠ "" → env.gp dtA = some d →
        parse_dt env dtA wt base = some (dtToLocalAbs env.localOff d)) ∧
    ((dtA = "" ∨ env.gp dtA = none) → stripChars wt.toList = [] →
        parse_dt env dtA wt base = none) ∧
    (∀ n isH, (dtA = "" ∨ env.gp dtA = none) → stripChars wt.toList ≠ [] →
        findRel (lowerChars (normSpaceChars (stripChars wt.toList))) = some (n, isH) →
        parse_dt env dtA wt base =
          some (base + (if isH then (n : Int) * 3600 else (n : Int) * 60))) ∧
    ((dtA = "" ∨ env.gp dtA = none) → stripChars wt.toList ≠ [] →
        findRel (lowerChars (normSpaceChars (stripChars wt.toList))) = none →
        parse_dt env dtA wt base =
          (env.gp (String.mk (substituteWord tomorrowW (env.fmtDate (base + 86400))
              (substituteWord todayW (env.fmtDate base)
                (normSpaceChars (stripChars wt.toList)))))).map (dtToLocalAbs env.localOff)) := by
  refine ⟨?_, ?_, ?_, ?_⟩
  · intro d hne hgp
    simp [parse_dt, hne, hgp]
  · intro h he
    rw [parse_dt_fallthrough env dtA wt base h]
    exact parse_dt_free_empty env wt base he
  · intro n isH h hne hrel
    rw [parse_dt_fallthrough env dtA wt base h]
    exact parse_dt_free_rel env wt base n isH hne hrel
  · intro h hne hrel
    rw [parse_dt_fallthrough env dtA wt base h]
    exact parse_dt_free_general env wt base hne hrel

/-- Witness for C5 on the relative branch: free text "in 15 minutes" with
no machine time resolves to now + 900 seconds. -/
theorem parse_dt_priority_witness :
    parse_dt envNone "" "in 15 minutes" 1000 = some 1900 := by
  have h := (parse_dt_priority envNone "" "in 15 minutes" 1000).2.2.1 15 false
    (Or.inl rfl) (by decide) (by decide)
  simpa using h

/-- Counterexample to claim C7 as stated: the keep decision for a single
card is not a function of the batch and one pipeline-start "now" alone;
within_window re-reads the clock (line 134), and a later second reading
flips the decision for the card with free text "in 15 minutes" even though
the first reading is the same. -/
theorem keep_depends_on_second_clock_read :
    keepDecision envNone "" "in 15 minutes" 0 0 = true ∧
    keepDecision envNone "" "in 15 minutes" 0 7200 = false :=
  ⟨rfl, rfl⟩

/-- Claim C7 as amended: now_local() is re-read in parse_dt and
within_window rather than captured once; when every reading returns one
frozen instant, the per-card decision is deterministic and agrees with the
single-now window semantics. -/
theorem keep_frozen_clock_iff (env : Env) (dt_attr when_text : String) (now t : Int)
    (h : parse_dt env dt_attr when_text now = some t) :
    keepDecision env dt_attr when_text now now = true ↔ (now ≤ t ∧ t ≤ now + 90 * 60) := by
  unfold keepDecision
  rw [h]
  exact within_window_some_iff now t when_text

/-- Witness for the amended C7 at a frozen clock reading 100. -/
theorem keep_frozen_clock_iff_witness :
    keepDecision envNone "" "in 15 minutes" 100 100 = true :=
  (keep_frozen_clock_iff envNone "" "in 15 minutes" 100 1000 rfl).mpr (by omega)

/-- Claim C1 fails on the code: on a non-blocked batch with one well-formed
card, main evaluates the undefined name TRUE at its sort call and raises
NameError instead of writing a document. -/
theorem main_raises_nameerror_nonblocked :
    is_blocked rawC1 = false ∧
    mainItems envNone clk0 rawC1 = Except.error PyError.nameErrorTRUE :=
  ⟨rfl, rfl⟩

/-- Claim C3 fails on the code: with two kept cards of attendance 5 and 9
the candidate list is built, but the by-attendance sort raises NameError
(undefined name TRUE), so no ordered output exists. -/
theorem main_raises_nameerror_before_sort :
    (buildItems envNone clk0 [evLow, evHigh] 0).map (fun it => it.attendees_count) = [5, 9] ∧
    mainItems envNone clk0 rawC3 = Except.error PyError.nameErrorTRUE :=
  ⟨rfl, rfl⟩

/-- Claim C6 fails on the code only at the last step: the extraction loop
does dedup two anchors sharing a canonical link, keeping exactly the
first-encountered card, but main then raises NameError (undefined name
TRUE) before any document is produced. -/
theorem extract_dedups_but_main_raises :
    extractCards [dupA1, dupA2] [] =
      [⟨"Rust Meetup", "https://www.meetup.com/events/dup/", "", "", "", ""⟩] ∧
    mainItems envNone clk0 rawC6 = Except.error PyError.nameErrorTRUE :=
  ⟨rfl, rfl⟩

/-- Claim C8 fails on the code: a non-blocked batch of 51 cards yields a
candidate list of 51 > MAX_ITEMS items, and main raises NameError
(undefined name TRUE) at the sort call, before the truncation to
MAX_ITEMS and before any document is produced. -/
theorem main_raises_nameerror_before_cap :
    (buildItems envNone clk0 (List.replicate 51 evC8) 0).length = 51 ∧
    MAX_ITEMS < 51 ∧
    mainItems envNone clk0 rawC8 = Except.error PyError.nameErrorTRUE :=
  ⟨by decide, by decide, rfl⟩

/- Character-class facts used by the scanning lemmas. -/

theorem digit_bounds {c : Char} (h : isDigitChar c = true) :
    48 ≤ c.toNat ∧ c.toNat ≤ 57 := by
  simpa [isDigitChar] using h

theorem digit_not_space {c : Char} (h : isDigitChar c = true) : isSpaceChar c = false := by
  have hb := digit_bounds h
  simp [isSpaceChar]
  omega

theorem digit_ne {c : Char} (h : isDigitChar c = true) (x : Char)
    (hx : x.toNat < 48 ∨ 57 < x.toNat) : c ≠ x := by
  intro he
  have hb := digit_bounds h
  subst he
  omega

theorem lowerChar_digit {c : Char} (h : isDigitChar c = true) : lowerChar c = c := by
  have hb := digit_bounds h
  unfold lowerChar
  rw [if_neg]
  simp
  omega

theorem lowerChars_digits (ds : List Char) (hds : ∀ c ∈ ds, isDigitChar c = true) :
    lowerChars ds = ds := by
  induction ds with
  | nil => rfl
  | cons c r ih =>
    have hc := lowerChar_digit (hds c (by simp))
    have hr := ih (fun x hx => hds x (by simp [hx]))
    simp [lowerChars] at hr ⊢
    exact ⟨hc, hr⟩

/- takeWhile and dropWhile across an all-true run. -/

theorem takeWhile_append_all {p : Char → Bool} (l : List Char) (hl : ∀ c ∈ l, p c = true)
    (c : Char) (hc : p c = false) (rest : List Char) :
    (l ++ c :: rest).takeWhile p = l := by
  induction l with
  | nil => simp [hc]
  | cons a l' ih =>
    have ha := hl a (by simp)
    have := ih (fun x hx => hl x (by simp [hx]))
    simp [ha, this]

theorem dropWhile_append_all {p : Char → Bool} (l : List Char) (hl : ∀ c ∈ l, p c = true)
    (c : Char) (hc : p c = false) (rest : List Char) :
    (l ++ c :: rest).dropWhile p = c :: rest := by
  induction l with
  | nil => simp [hc]
  | cons a l' ih =>
    have ha := hl a (by simp)
    have := ih (fun x hx => hl x (by simp [hx]))
    simp [ha, this]

/- Stepping lemmas for the relative-pattern scanner. -/

theorem matchRelAt_digit {c : Char} (h : isDigitChar c = true) (cs : List Char) :
    matchRelAt (c :: cs) = none := by
  cases cs with
  | nil => rfl
  | cons c2 rest =>
    have hne : c ≠ 'i' := digit_ne h 'i' (by decide)
    simp [matchRelAt, hne]

theorem findRelGo_step (p : Option Char) (c : Char) (cs : List Char)
    (h : matchRelAt (c :: cs) = none) :
    findRelGo p (c :: cs) = findRelGo (some c) cs := by
  cases hb : wordBoundaryBefore p <;> simp [findRelGo, hb, h]

theorem findRelGo_digits (ds : List Char) :
    (∀ c ∈ ds, isDigitChar c = true) →
    ∀ (rest : List Char), (∀ q, findRelGo q rest = none) →
    ∀ p, findRelGo p (ds ++ rest) = none := by
  induction ds with
  | nil =>
    intro _ rest hrest p
    exact hrest p
  | cons c ds' ih =>
    intro hds rest hrest p
    have hc : isDigitChar c = true := hds c (by simp)
    have hm : matchRelAt (c :: (ds' ++ rest)) = none := matchRelAt_digit hc _
    rw [List.cons_append, findRelGo_step p c (ds' ++ rest) hm]
    exact ih (fun x hx => hds x (by simp [hx])) rest hrest (some c)

theorem findRelGo_space_tail (us : List Char) (h1 : matchRelAt (' ' :: us) = none)
    (h2 : findRelGo (some ' ') us = none) : ∀ q, findRelGo q (' ' :: us) = none := by
  intro q
  rw [findRelGo_step q ' ' us h1]
  exact h2

/- The relative pattern rejects a digit run of length four or more: each
shorter slice of the run leaves a digit before the unit word, so the whole
search at that position fails. -/

theorem matchRelAt_reject (d : Char) (ds₂ us : List Char)
    (hds : ∀ c ∈ d :: ds₂, isDigitChar c = true)
    (hlen : 4 ≤ (d :: ds₂).length) :
    matchRelAt ('i' :: 'n' :: ' ' :: ((d :: ds₂) ++ ' ' :: us)) = none := by
  have hd : isDigitChar d = true := hds d (by simp)
  have hdsp : isSpaceChar d = false := digit_not_space hd
  have htake : ((d :: ds₂) ++ ' ' :: us).takeWhile isDigitChar = d :: ds₂ :=
    takeWhile_append_all (d :: ds₂) hds ' ' (by decide) us
  have hne : ((' ' :: ((d :: ds₂) ++ ' ' :: us)).takeWhile isSpaceChar).isEmpty = false := rfl
  have hdrop : (' ' :: ((d :: ds₂) ++ ' ' :: us)).dropWhile isSpaceChar
      = d :: (ds₂ ++ ' ' :: us) := by
    show ((d :: ds₂) ++ ' ' :: us).dropWhile isSpaceChar = d :: (ds₂ ++ ' ' :: us)
    rw [List.cons_append, List.dropWhile_cons_of_neg]
    simp [hdsp]
  show matchRelAfterIn (' ' :: ((d :: ds₂) ++ ' ' :: us)) = none
  unfold matchRelAfterIn
  rw [if_neg (by rw [hne]; simp), hdrop]
  unfold matchRelNum
  rw [show (d :: (ds₂ ++ ' ' :: us)).takeWhile isDigitChar = d :: ds₂ from by
    rw [← List.cons_append]; exact htake]
  rw [if_pos]
  simp at hlen ⊢
  omega

theorem findRel_reject (ds us : List Char) (hlen : 4 ≤ ds.length)
    (hds : ∀ c ∈ ds, isDigitChar c = true)
    (hu1 : matchRelAt (' ' :: us) = none)
    (hu2 : findRelGo (some ' ') us = none) :
    findRel ('i' :: 'n' :: ' ' :: (ds ++ ' ' :: us)) = none := by
  obtain ⟨d, ds₂, rfl⟩ : ∃ d ds₂, ds = d :: ds₂ := by
    cases ds with
    | nil => simp at hlen
    | cons a b => exact ⟨a, b, rfl⟩
  have hpos0 := matchRelAt_reject d ds₂ us hds hlen
  have h1 : matchRelAt ('n' :: ' ' :: ((d :: ds₂) ++ ' ' :: us)) = none := rfl
  have h2 : matchRelAt (' ' :: ((d :: ds₂) ++ ' ' :: us)) = none := rfl
  unfold findRel
  rw [findRelGo_step none 'i' _ hpos0, findRelGo_step (some 'i') 'n' _ h1,
    findRelGo_step (some 'n') ' ' _ h2]
  exact findRelGo_digits (d :: ds₂) hds (' ' :: us)
    (findRelGo_space_tail us hu1 hu2) (some ' ')

/- Text-normalization facts for texts with a nonspace head and tail. -/

theorem stripChars_eq_self (c : Char) (mid : List Char) (d : Char)
    (hc : isSpaceChar c = false) (hd : isSpaceChar d = false) :
    stripChars (c :: (mid ++ [d])) = c :: (mid ++ [d]) := by
  unfold stripChars
  rw [List.dropWhile_cons_of_neg (by simp [hc])]
  have hrev : (c :: (mid ++ [d])).reverse = d :: (mid.reverse ++ [c]) := by
    simp
  rw [hrev, List.dropWhile_cons_of_neg (by simp [hd]), ← hrev, List.reverse_reverse]

theorem normSpaceGo_cons_nonspace (b : Bool) (c : Char) (l : List Char)
    (hc : isSpaceChar c = false) :
    normSpaceGo b (c :: l) = c :: normSpaceGo false l := by
  cases b <;> simp [normSpaceGo, hc]

theorem normSpaceGo_run (ds : List Char) :
    (∀ c ∈ ds, isSpaceChar c = false) → ds ≠ [] →
    ∀ (b : Bool) (rest : List Char),
      normSpaceGo b (ds ++ rest) = ds ++ normSpaceGo false rest := by
  induction ds with
  | nil => intro _ hne; cases hne rfl
  | cons c ds' ih =>
    intro hds _ b rest
    rw [List.cons_append, normSpaceGo_cons_nonspace b c _ (hds c (by simp))]
    by_cases h' : ds' = []
    · subst h'; simp
    · rw [ih (fun x hx => hds x (by simp [hx])) h' false rest, List.cons_append]

/- Word-scan rejection lemmas. -/

theorem listStartsCI_digit_head (wc : Char) (ws : List Char) (hwc : 57 < wc.toNat)
    (c : Char) (hc : isDigitChar c = true) (cs : List Char) :
    listStartsCI (wc :: ws) (c :: cs) = false := by
  have hb := digit_bounds hc
  have hne : wc ≠ c := by
    intro he
    rw [he] at hwc
    omega
  simp [listStartsCI, lowerChar_digit hc, hne]

theorem hasWordGo_step (w : List Char) (p : Option Char) (c : Char) (cs : List Char)
    (h : listStartsCI w (c :: cs) = false) :
    hasWordGo w p (c :: cs) = hasWordGo w (some c) cs := by
  simp [hasWordGo, h]

theorem hasWordGo_digits (wc : Char) (ws : List Char) (hwc : 57 < wc.toNat)
    (ds : List Char) :
    (∀ c ∈ ds, isDigitChar c = true) →
    ∀ (rest : List Char), (∀ q, hasWordGo (wc :: ws) q rest = false) →
    ∀ p, hasWordGo (wc :: ws) p (ds ++ rest) = false := by
  induction ds with
  | nil => intro _ rest hrest p; exact hrest p
  | cons c ds' ih =>
    intro hds rest hrest p
    have hc := hds c (by simp)
    rw [List.cons_append, hasWordGo_step _ p c _ (listStartsCI_digit_head wc ws hwc c hc _)]
    exact ih (fun x hx => hds x (by simp [hx])) rest hrest (some c)

/- A successful substring search only uses characters of the haystack. -/

theorem listStarts_mem (n : List Char) : ∀ (h : List Char), listStarts n h = true →
    ∀ c ∈ n, c ∈ h := by
  induction n with
  | nil => intro h _ c hc; simp at hc
  | cons a n' ih =>
    intro h hs c hc
    cases h with
    | nil => simp [listStarts] at hs
    | cons b h' =>
      simp [listStarts] at hs
      obtain ⟨hab, hrest⟩ := hs
      rcases List.mem_cons.mp hc with rfl | hc'
      · rw [hab]; simp
      · exact List.mem_cons_of_mem b (ih h' hrest c hc')

theorem containsSub_mem (hay : List Char) : ∀ needle, containsSub hay needle = true →
    ∀ c ∈ needle, c ∈ hay := by
  induction hay with
  | nil =>
    intro needle h c hc
    simp [containsSub] at h
    subst h
    simp at hc
  | cons a rest ih =>
    intro needle h c hc
    simp [containsSub] at h
    rcases h with h | h
    · exact listStarts_mem needle (a :: rest) h c hc
    · exact List.mem_cons_of_mem a (ih needle h c hc)

/-- Combined rejection lemma: for a relative phrase whose digit token has
four or more digits, the relative pattern fails, so the window filter
falls to its default and the time resolver falls through to the general
parser with the text unchanged.  The unit word us is abstract here, its
closed side conditions supplied by the caller. -/
theorem relative_reject_general (ds us : List Char)
    (hlen : 4 ≤ ds.length) (hds : ∀ c ∈ ds, isDigitChar c = true)
    (hu1 : matchRelAt (' ' :: us) = none)
    (hu2 : findRelGo (some ' ') us = none)
    (hu3 : lowerChars us = us)
    (hu4 : ∃ t dl, us = t ++ [dl] ∧ isSpaceChar dl = false)
    (hu5 : normSpaceGo true us = us)
    (hu6 : listStartsCI todayW (' ' :: us) = false)
    (hu7 : hasWordGo todayW (some ' ') us = false)
    (hu8 : listStartsCI tomorrowW (' ' :: us) = false)
    (hu9 : hasWordGo tomorrowW (some ' ') us = false)
    (hu10 : 'a' ∉ us) :
    findRel ('i' :: 'n' :: ' ' :: (ds ++ ' ' :: us)) = none ∧
    (∀ start : Int,
      within_window none (String.mk ('i' :: 'n' :: ' ' :: (ds ++ ' ' :: us))) start = true) ∧
    (∀ (env : Env) (base : Int),
      parse_dt env "" (String.mk ('i' :: 'n' :: ' ' :: (ds ++ ' ' :: us))) base =
        (env.gp (String.mk ('i' :: 'n' :: ' ' :: (ds ++ ' ' :: us)))).map
          (dtToLocalAbs env.localOff)) := by
  have hdsne : ds ≠ [] := by
    intro h
    rw [h] at hlen
    simp at hlen
  have ha : findRel ('i' :: 'n' :: ' ' :: (ds ++ ' ' :: us)) = none :=
    findRel_reject ds us hlen hds hu1 hu2
  have hstrip : stripChars ('i' :: 'n' :: ' ' :: (ds ++ ' ' :: us))
      = 'i' :: 'n' :: ' ' :: (ds ++ ' ' :: us) := by
    obtain ⟨t, dl, hus, hdl⟩ := hu4
    have hshape : ('i' : Char) :: 'n' :: ' ' :: (ds ++ ' ' :: us)
        = 'i' :: (('n' :: ' ' :: (ds ++ ' ' :: t)) ++ [dl]) := by
      rw [hus]
      simp
    rw [hshape]
    exact stripChars_eq_self 'i' _ dl rfl hdl
  have hlow : lowerChars ('i' :: 'n' :: ' ' :: (ds ++ ' ' :: us))
      = 'i' :: 'n' :: ' ' :: (ds ++ ' ' :: us) := by
    show List.map lowerChar ('i' :: 'n' :: ' ' :: (ds ++ ' ' :: us)) = _
    rw [List.map_cons, List.map_cons, List.map_cons, List.map_append, List.map_cons]
    rw [show lowerChar 'i' = 'i' from rfl, show lowerChar 'n' = 'n' from rfl,
      show lowerChar ' ' = ' ' from rfl]
    rw [show List.map lowerChar ds = ds from lowerChars_digits ds hds,
      show List.map lowerChar us = us from hu3]
  have hnorm : normSpaceChars ('i' :: 'n' :: ' ' :: (ds ++ ' ' :: us))
      = 'i' :: 'n' :: ' ' :: (ds ++ ' ' :: us) := by
    unfold normSpaceChars
    rw [normSpaceGo_cons_nonspace false 'i' _ rfl, normSpaceGo_cons_nonspace false 'n' _ rfl]
    rw [show normSpaceGo false (' ' :: (ds ++ ' ' :: us))
        = ' ' :: normSpaceGo true (ds ++ ' ' :: us) from rfl]
    rw [normSpaceGo_run ds (fun c hc => digit_not_space (hds c hc)) hdsne true (' ' :: us)]
    rw [show normSpaceGo false (' ' :: us) = ' ' :: normSpaceGo true us from rfl, hu5]
  have htoday : hasWordCI todayW ('i' :: 'n' :: ' ' :: (ds ++ ' ' :: us)) = false := by
    unfold hasWordCI
    rw [hasWordGo_step todayW none 'i' _ rfl, hasWordGo_step todayW (some 'i') 'n' _ rfl,
      hasWordGo_step todayW (some 'n') ' ' _ rfl]
    exact hasWordGo_digits 't' ("oday".toList) (by decide) ds hds (' ' :: us)
      (fun q => by
        rw [show ('t' :: "oday".toList) = todayW from rfl, hasWordGo_step _ q ' ' us hu6]
        exact hu7) (some ' ')
  have htomorrow : hasWordCI tomorrowW ('i' :: 'n' :: ' ' :: (ds ++ ' ' :: us)) = false := by
    unfold hasWordCI
    rw [hasWordGo_step tomorrowW none 'i' _ rfl, hasWordGo_step tomorrowW (some 'i') 'n' _ rfl,
      hasWordGo_step tomorrowW (some 'n') ' ' _ rfl]
    exact hasWordGo_digits 't' ("omorrow".toList) (by decide) ds hds (' ' :: us)
      (fun q => by
        rw [show ('t' :: "omorrow".toList) = tomorrowW from rfl, hasWordGo_step _ q ' ' us hu8]
        exact hu9) (some ' ')
  have hnotin : 'a' ∉ ('i' :: 'n' :: ' ' :: (ds ++ ' ' :: us)) := by
    intro hmem
    rcases List.mem_cons.mp hmem with h | hmem2
    · exact absurd h (by decide)
    rcases List.mem_cons.mp hmem2 with h | hmem3
    · exact absurd h (by decide)
    rcases List.mem_cons.mp hmem3 with h | hmem4
    · exact absurd h (by decide)
    rcases List.mem_append.mp hmem4 with h | hmem5
    · have hb := digit_bounds (hds 'a' h)
      have hv : ('a').toNat = 97 := rfl
      omega
    rcases List.mem_cons.mp hmem5 with h | h
    · exact absurd h (by decide)
    · exact hu10 h
  have hss : containsSub ('i' :: 'n' :: ' ' :: (ds ++ ' ' :: us)) startingSoonW = false := by
    rw [Bool.eq_false_iff]
    intro hcon
    exact hnotin (containsSub_mem _ startingSoonW hcon 'a' (by decide))
  refine ⟨ha, ?_, ?_⟩
  · intro start
    refine within_window_none_default _ start ?_ ?_
    · show containsSub (stripChars (lowerChars ('i' :: 'n' :: ' ' :: (ds ++ ' ' :: us))))
        startingSoonW = false
      rw [hlow, hstrip]
      exact hss
    · show findRel (stripChars (lowerChars ('i' :: 'n' :: ' ' :: (ds ++ ' ' :: us)))) = none
      rw [hlow, hstrip]
      exact ha
  · intro env base
    rw [parse_dt_fallthrough env "" (String.mk ('i' :: 'n' :: ' ' :: (ds ++ ' ' :: us))) base
      (Or.inl rfl)]
    have hne2 : stripChars (String.mk ('i' :: 'n' :: ' ' :: (ds ++ ' ' :: us))).toList ≠ [] := by
      show stripChars ('i' :: 'n' :: ' ' :: (ds ++ ' ' :: us)) ≠ []
      rw [hstrip]
      simp
    have hrel2 : findRel (lowerChars (normSpaceChars
        (stripChars (String.mk ('i' :: 'n' :: ' ' :: (ds ++ ' ' :: us))).toList))) = none := by
      show findRel (lowerChars (normSpaceChars
        (stripChars ('i' :: 'n' :: ' ' :: (ds ++ ' ' :: us))))) = none
      rw [hstrip, hnorm, hlow]
      exact ha
    rw [parse_dt_free_general env _ base hne2 hrel2]
    rw [show stripChars (String.mk ('i' :: 'n' :: ' ' :: (ds ++ ' ' :: us))).toList
        = 'i' :: 'n' :: ' ' :: (ds ++ ' ' :: us) from hstrip]
    rw [hnorm]
    rw [show substituteWord todayW (env.fmtDate base) ('i' :: 'n' :: ' ' :: (ds ++ ' ' :: us))
        = 'i' :: 'n' :: ' ' :: (ds ++ ' ' :: us) from by simp [substituteWord, htoday]]
    rw [show substituteWord tomorrowW (env.fmtDate (base + 86400))
          ('i' :: 'n' :: ' ' :: (ds ++ ' ' :: us))
        = 'i' :: 'n' :: ' ' :: (ds ++ ' ' :: us) from by simp [substituteWord, htomorrow]]

/-- Claim C10: the relative-time pattern of both the time resolver and the
window-filter fallback matches only counts of one to three digits: for a
free text "in <ds> minute(s)/hour(s)" whose digit token has four or more
digits (so every count N ≥ 1000), the pattern search fails, within_window
falls through to its include-by-default branch, and parse_dt does not
resolve a relative instant: it falls through to the general-parse step
with the text unchanged (today/tomorrow substitution leaves it intact). -/
theorem relative_rule_digit_bound (us ds : List Char)
    (hu : us = minutesW ∨ us = minuteW ∨ us = hoursW ∨ us = hourW)
    (hlen : 4 ≤ ds.length) (hds : ∀ c ∈ ds, isDigitChar c = true) :
    findRel ('i' :: 'n' :: ' ' :: (ds ++ ' ' :: us)) = none ∧
    (∀ start : Int,
      within_window none (String.mk ('i' :: 'n' :: ' ' :: (ds ++ ' ' :: us))) start = true) ∧
    (∀ (env : Env) (base : Int),
      parse_dt env "" (String.mk ('i' :: 'n' :: ' ' :: (ds ++ ' ' :: us))) base =
        (env.gp (String.mk ('i' :: 'n' :: ' ' :: (ds ++ ' ' :: us)))).map
          (dtToLocalAbs env.localOff)) := by
  rcases hu with rfl | rfl | rfl | rfl
  · exact relative_reject_general ds minutesW hlen hds rfl (by decide) rfl
      ⟨"minute".toList, 's', by decide, rfl⟩ (by decide) rfl (by decide) rfl (by decide)
      (by decide)
  · exact relative_reject_general ds minuteW hlen hds rfl (by decide) rfl
      ⟨"minut".toList, 'e', by decide, rfl⟩ (by decide) rfl (by decide) rfl (by decide)
      (by decide)
  · exact relative_reject_general ds hoursW hlen hds rfl (by decide) rfl
      ⟨"hour".toList, 's', by decide, rfl⟩ (by decide) rfl (by decide) rfl (by decide)
      (by decide)
  · exact relative_reject_general ds hourW hlen hds rfl (by decide) rfl
      ⟨"hou".toList, 'r', by decide, rfl⟩ (by decide) rfl (by decide) rfl (by decide)
      (by decide)

/-- Witness for C10 at the concrete text "in 1000 minutes". -/
theorem relative_rule_digit_bound_witness :
    findRel ('i' :: 'n' :: ' ' :: (['1', '0', '0', '0'] ++ ' ' :: minutesW)) = none ∧
    within_window none
      (String.mk ('i' :: 'n' :: ' ' :: (['1', '0', '0', '0'] ++ ' ' :: minutesW))) 0 = true ∧
    parse_dt envNone ""
      (String.mk ('i' :: 'n' :: ' ' :: (['1', '0', '0', '0'] ++ ' ' :: minutesW))) 5 = none := by
  have h := relative_rule_digit_bound minutesW ['1', '0', '0', '0'] (Or.inl rfl)
    (by decide) (by decide)
  refine ⟨h.1, h.2.1 0, ?_⟩
  rw [h.2.2 envNone 5]
  rfl

end Meetup
